import Mathlib

/-!
Verification development for the GTO repository: a shallow embedding of the
CFR / CFR+ / Linear-CFR / MCCFR solver core (game trees, info-set shards,
regret matching, best response, average-strategy queries) together with
theorems settling the specification claims.  Floating-point `double` values
are modelled by exact rationals; machine integers by `Nat`/`Int` (the states
exercised keep all bit-packed quantities far below the 32/64-bit bounds, and
overflow-relevant masking is made explicit where it matters).
-/

namespace GTO

/-- Player tags, from game.h: `PLAYER1 = 0`, `PLAYER2 = 1`, `CHANCE = 2`. -/
def PLAYER1 : Nat := 0

/-- Player 2 tag from game.h. -/
def PLAYER2 : Nat := 1

/-- Chance player tag from game.h. -/
def CHANCE : Nat := 2

/-! ## Regret matching (cfr_plus.h / mccfr.h, `Shard::get_strategy_from_regrets`)

The source reads `regrets[0..n)`, clamps each to `max(regret, 0)`, sums, and
divides by the sum when it is positive, otherwise returns the uniform
distribution `1/n`.  We model the `n` regret slots by a list of rationals. -/

/-- Embedding of `Shard::get_strategy_from_regrets` (cfr_plus.h lines 51-68,
identical in mccfr.h lines 51-68 and part_000 lines 60-72 where the first `n`
slots of the storage play the role of `regrets`). -/
def get_strategy_from_regrets (regrets : List ℚ) : List ℚ :=
  let clamped := regrets.map fun r => max r 0
  let sum := clamped.sum
  if 0 < sum then clamped.map fun x => x / sum
  else regrets.map fun _ => 1 / (regrets.length : ℚ)

/-- Embedding of the inline regret-matching block of `CFR::linear_cfr`
(cfr.h lines 193-207): the clamp is written `regrets[i] >= 0 ? regrets[i] : 0`
and the normalization/uniform fallback is the same. -/
def linear_cfr_strategy (regrets : List ℚ) : List ℚ :=
  let sum := (regrets.map fun r => if 0 ≤ r then r else 0).sum
  if 0 < sum then regrets.map fun r => (if 0 ≤ r then r else 0) / sum
  else regrets.map fun _ => 1 / (regrets.length : ℚ)

/-- The uniform distribution over `n` actions, `s[i] = 1/n` for every `i`. -/
def uniform_strategy (n : Nat) : List ℚ :=
  List.replicate n (1 / (n : ℚ))

/-! ## CFR+ accumulate (cfr_plus.h, `Shard::add_regrets`) -/

/-- Embedding of `CFRPlus::Shard::add_regrets` (cfr_plus.h lines 28-38): each
regret slot `i < n` becomes `max(0, regrets[i] + regret_values[i])`; the CFR+
variant floors regrets at zero inside the accumulate operation. -/
def CFRPlus.add_regrets (regrets deltas : List ℚ) : List ℚ :=
  List.zipWith (fun r d => max 0 (r + d)) regrets deltas

/-- Embedding of `CFRPlus::Shard::add_strategies` (cfr_plus.h lines 40-49):
plain element-wise addition, no clamp. -/
def CFRPlus.add_strategies (strategies deltas : List ℚ) : List ℚ :=
  List.zipWith (· + ·) strategies deltas

/-! ## Chance probability normalization (cfr.h `fill_probas`, cfr_plus.h `init`)

For a chance node with integer weights `w_0 .. w_{n-1}` the source computes
`sum = Σ w_i` (accumulated in the numeric type `T`) and stores `w_i / sum`.
The computation appears verbatim in `CFR::fill_probas` (cfr.h lines 90-99)
and in `CFRPlus::init` / `MCCFR::init` (cfr_plus.h lines 97-105).  On the
claim's inputs (25,75) and (1,3) every quotient is a dyadic rational, so the
exact rational model agrees with the IEEE double computation there. -/

/-- The per-chance-node body of `CFR::fill_probas`: normalize the integer
weights by their sum. -/
def fill_probas_entry (ws : List ℤ) : List ℚ :=
  let sum : ℚ := (ws.map fun (w : ℤ) => (w : ℚ)).sum
  ws.map fun (w : ℤ) => (w : ℚ) / sum

/-- Pointwise form of the clamp used by `linear_cfr`: the conditional
`regrets[i] >= 0 ? regrets[i] : 0` of cfr.h computes `max r 0`. -/
theorem if_nonneg_eq_max (r : ℚ) : (if 0 ≤ r then r else 0) = max r 0 := by
  rcases le_or_lt 0 r with h0 | h0
  · rw [if_pos h0, max_eq_left h0]
  · rw [if_neg (not_le.mpr h0), max_eq_right h0.le]

/-- Summing a list after dividing every element by a constant divides the sum. -/
theorem list_sum_map_div (l : List ℚ) (c : ℚ) :
    (l.map fun x => x / c).sum = l.sum / c := by
  induction l with
  | nil => simp
  | cons a t ih => simp [ih, add_div]

/-- The clamped regrets are nonnegative, hence so is their sum. -/
theorem clamped_sum_nonneg (R : List ℚ) : 0 ≤ (R.map fun r => max r 0).sum := by
  apply List.sum_nonneg
  intro x hx
  rcases List.mem_map.mp hx with ⟨r, _, rfl⟩
  exact le_max_right r 0

/-- C2 (amended): for a nonempty regret vector `R`, `get_strategy_from_regrets`
returns `max(R[a],0)` divided by the positive clamped sum when that sum is
positive and the uniform distribution otherwise; the result is nonnegative,
sums to 1, and is uniform whenever every `max(R[a],0)` is zero (the converse
direction of the original claim's iff fails, see the counterexample); the
inline regret-matching block of `CFR::linear_cfr` computes the same strategy. -/
theorem C2_regret_matching_amended (R : List ℚ) (h : R ≠ []) :
    (0 < (R.map fun r => max r 0).sum →
      get_strategy_from_regrets R =
        (R.map fun r => max r 0).map fun x => x / (R.map fun r => max r 0).sum) ∧
    (¬ 0 < (R.map fun r => max r 0).sum →
      get_strategy_from_regrets R = uniform_strategy R.length) ∧
    (∀ x ∈ get_strategy_from_regrets R, 0 ≤ x) ∧
    (get_strategy_from_regrets R).sum = 1 ∧
    ((∀ r ∈ R, max r 0 = 0) →
      get_strategy_from_regrets R = uniform_strategy R.length) ∧
    linear_cfr_strategy R = get_strategy_from_regrets R := by
  have hlen : (R.length : ℚ) ≠ 0 :=
    Nat.cast_ne_zero.mpr (List.length_pos.mpr h).ne'
  have hconst : (R.map fun _ => 1 / (R.length : ℚ)) = uniform_strategy R.length := by
    rw [uniform_strategy, List.map_const']
  have hmax : (fun r : ℚ => if 0 ≤ r then r else 0) = fun r : ℚ => max r 0 :=
    funext if_nonneg_eq_max
  by_cases hS : 0 < (R.map fun r => max r 0).sum
  · have hdef : get_strategy_from_regrets R =
        (R.map fun r => max r 0).map fun x => x / (R.map fun r => max r 0).sum := by
      rw [get_strategy_from_regrets, if_pos hS]
    refine ⟨fun _ => hdef, fun hc => absurd hS hc, ?_, ?_, ?_, ?_⟩
    · intro x hx
      rw [hdef] at hx
      rcases List.mem_map.mp hx with ⟨y, hy, rfl⟩
      rcases List.mem_map.mp hy with ⟨r, _, rfl⟩
      exact div_nonneg (le_max_right r 0) hS.le
    · rw [hdef, list_sum_map_div, div_self hS.ne']
    · intro hz
      exfalso
      have : (R.map fun r => max r 0).sum = 0 := by
        rw [List.sum_eq_zero]
        intro x hx
        rcases List.mem_map.mp hx with ⟨r, hr, rfl⟩
        exact hz r hr
      exact hS.ne' this
    · rw [hdef]
      simp only [linear_cfr_strategy, if_nonneg_eq_max]
      rw [if_pos hS, List.map_map]
      rfl
  · have hS0 : (R.map fun r => max r 0).sum = 0 :=
      le_antisymm (not_lt.mp hS) (clamped_sum_nonneg R)
    have hdef : get_strategy_from_regrets R = uniform_strategy R.length := by
      rw [get_strategy_from_regrets, if_neg hS, hconst]
    refine ⟨fun hc => absurd hc hS, fun _ => hdef, ?_, ?_, fun _ => hdef, ?_⟩
    · intro x hx
      rw [hdef, uniform_strategy] at hx
      rw [List.eq_of_mem_replicate hx]
      positivity
    · rw [hdef, uniform_strategy, List.sum_replicate, nsmul_eq_mul,
        mul_one_div, div_self hlen]
    · rw [hdef]
      simp only [linear_cfr_strategy, if_nonneg_eq_max]
      rw [if_neg hS, hconst]

/-- Witness for C2: the amended regret-matching properties hold at the
concrete regret vector `[3, -1]`. -/
theorem C2_regret_matching_amended_witness :
    ([(3 : ℚ), -1] ≠ []) ∧
    ((∀ x ∈ get_strategy_from_regrets [(3 : ℚ), -1], 0 ≤ x) ∧
      (get_strategy_from_regrets [(3 : ℚ), -1]).sum = 1) := by
  refine ⟨by decide, ?_⟩
  have h := C2_regret_matching_amended [(3 : ℚ), -1] (by decide)
  exact ⟨h.2.2.1, h.2.2.2.1⟩

/-- C2 counterexample: at the regret vector `[1, 1]` the returned strategy is
exactly the uniform distribution, yet the clamped regrets `max(R[a], 0)` are
not all zero, so the claim's biconditional (uniform iff all clamps zero) is
false. -/
theorem C2_uniform_iff_counterexample :
    get_strategy_from_regrets [(1 : ℚ), 1] = uniform_strategy 2 ∧
    ¬ (∀ r ∈ [(1 : ℚ), 1], max r 0 = 0) := by
  constructor
  · norm_num [get_strategy_from_regrets, uniform_strategy, List.replicate]
  · intro hz
    have h1 := hz 1 (by simp)
    norm_num at h1

/-- C6: after every `CFRPlus::Shard::add_regrets` call, every regret slot of
the entry is nonnegative, regardless of the signs of the submitted deltas:
the accumulate operation floors each slot at zero. -/
theorem C6_cfrplus_regret_floor (regrets deltas : List ℚ) :
    ∀ x ∈ CFRPlus.add_regrets regrets deltas, 0 ≤ x := by
  induction regrets generalizing deltas with
  | nil => intro x hx; simp [CFRPlus.add_regrets] at hx
  | cons r t ih =>
    intro x hx
    cases deltas with
    | nil => simp [CFRPlus.add_regrets] at hx
    | cons d ds =>
      rcases List.mem_cons.mp hx with hx | hx
      · rw [hx]; exact le_max_left 0 (r + d)
      · exact ih ds x hx

/-- Witness for C6: concrete negative deltas still leave every accumulated
regret nonnegative. -/
theorem C6_cfrplus_regret_floor_witness :
    (0 : ℚ) ∈ CFRPlus.add_regrets [(-3 : ℚ), 2] [(1 : ℚ), -5] ∧
    (0 : ℚ) ≤ 0 :=
  ⟨by norm_num [CFRPlus.add_regrets],
    C6_cfrplus_regret_floor [(-3 : ℚ), 2] [(1 : ℚ), -5] 0
      (by norm_num [CFRPlus.add_regrets])⟩

/-- C8: the chance probabilities stored at tree-build/solver initialization
are `w_i / Σ w`, they sum to exactly 1 for every chance node with positive
integer weights, and on the inputs (25, 75) and (1, 3) the stored values are
exactly 1/4 and 3/4 (dyadic rationals, so the IEEE double computation of the
source is also exact there). -/
theorem C8_chance_probas_sum_one (ws : List ℤ) (hne : ws ≠ [])
    (hpos : ∀ w ∈ ws, 0 < w) :
    (fill_probas_entry ws).sum = 1 ∧
    fill_probas_entry [25, 75] = [1 / 4, 3 / 4] ∧
    fill_probas_entry [1, 3] = [1 / 4, 3 / 4] ∧
    ((1 : ℚ) / 4 + 3 / 4 = 1) := by
  refine ⟨?_, by norm_num [fill_probas_entry], by norm_num [fill_probas_entry],
    by norm_num⟩
  have hpos' : 0 < (ws.map fun (w : ℤ) => (w : ℚ)).sum := by
    apply List.sum_pos
    · intro x hx
      rcases List.mem_map.mp hx with ⟨w, hw, rfl⟩
      exact_mod_cast hpos w hw
    · intro hmap
      exact hne (List.map_eq_nil_iff.mp hmap)
  have hmm : (ws.map fun (w : ℤ) => (w : ℚ) / (ws.map fun (w : ℤ) => (w : ℚ)).sum) =
      (ws.map fun (w : ℤ) => (w : ℚ)).map
        fun x => x / (ws.map fun (w : ℤ) => (w : ℚ)).sum := by
    rw [List.map_map]
    rfl
  simp only [fill_probas_entry]
  rw [hmm, list_sum_map_div, div_self hpos'.ne']

/-- Witness for C8: the theorem applied at the concrete weight vector
(25, 75). -/
theorem C8_chance_probas_sum_one_witness :
    (fill_probas_entry [25, 75]).sum = 1 :=
  (C8_chance_probas_sum_one [25, 75] (by decide) (by decide)).1

/-! ## Flat game tree (game_tree.h, second `GameTree` in part_010)

A node's packed descriptor `nb_children[idx]` stores `(n << 2) + player`
(low two bits the kind tag, upper bits the fan-out); fan-out 0 marks a
terminal whose signed payoff sits in `children[start]`.  Player children
occupy `children[start .. start+n)`; chance children are interleaved
`(child_idx, weight)` pairs in `children[start .. start+2n)`. -/

/-- The flat arrays of `GameTree` that the solvers read (info sets are
abstracted away: the solvers access them only through the per-node shard
index, which we pass explicitly as the `node_idx_to_shard_idx` list). -/
structure GameTree where
  nb_children : List Nat
  start_children_and_actions : List Nat
  children : List Int

/-- One info-set entry of `CFRPlus`/`MCCFR` (cfr_plus.h lines 17-27): a
chance entry holds `probas`, a player entry holds `regrets` and
`strategies`, each of length equal to the node's fan-out. -/
structure Shard where
  probas : List ℚ
  regrets : List ℚ
  strategies : List ℚ
deriving DecidableEq

instance : Inhabited Shard := ⟨⟨[], [], []⟩⟩

/-- Embedding of `CFRPlus::cfr_plus_iteration` (cfr_plus.h lines 123-174)
with explicit state passing for the shard table and a fuel argument for the
index-based recursion (any fuel exceeding the tree height computes the same
run as the source).  Note that the function takes no updating-player
argument: a single call accumulates regret and strategy deltas at the nodes
of both players. -/
def cfr_plus_iteration (t : GameTree) (n2s : List Nat) :
    Nat → List Shard → Nat → ℚ → ℚ → ℚ → ℚ × List Shard
  | 0, shards, _, _, _, _ => (0, shards)
  | fuel + 1, shards, idx, pi1, pi2, pc =>
    if pi1 = 0 ∧ pi2 = 0 then (0, shards) else
    let start := t.start_children_and_actions.getD idx 0
    let n := t.nb_children.getD idx 0 / 4
    if n = 0 then (((t.children.getD start 0 : ℤ) : ℚ), shards) else
    let player := t.nb_children.getD idx 0 % 4
    let sIdx := n2s.getD idx 0
    if player = CHANCE then
      (List.range n).foldl
        (fun acc i =>
          let p := (shards.getD sIdx default).probas.getD i 0
          let r := cfr_plus_iteration t n2s fuel acc.2
            (t.children.getD (start + 2 * i) 0).toNat pi1 pi2 (pc * p)
          (acc.1 + p * r.1, r.2))
        ((0 : ℚ), shards)
    else
      let s := get_strategy_from_regrets (shards.getD sIdx default).regrets
      match (List.range n).foldl
          (fun (acc : ℚ × List ℚ × List Shard) i =>
            let si := s.getD i 0
            let r :=
              if player = PLAYER1 then
                cfr_plus_iteration t n2s fuel acc.2.2
                  (t.children.getD (start + i) 0).toNat (si * pi1) pi2 pc
              else
                cfr_plus_iteration t n2s fuel acc.2.2
                  (t.children.getD (start + i) 0).toNat pi1 (si * pi2) pc
            (acc.1 + si * r.1, acc.2.1 ++ [r.1], r.2))
          ((0 : ℚ), ([] : List ℚ), shards) with
      | (u, utils, shards1) =>
        let regret_updates := (List.range n).map fun i =>
          if player = PLAYER1 then pi2 * pc * (utils.getD i 0 - u)
          else pi1 * pc * (u - utils.getD i 0)
        let strategy_updates := (List.range n).map fun i =>
          (if player = PLAYER1 then pi1 else pi2) * s.getD i 0
        match shards1.getD sIdx default with
        | sh =>
          let sh2 : Shard :=
            { probas := sh.probas,
              regrets := CFRPlus.add_regrets sh.regrets regret_updates,
              strategies := CFRPlus.add_strategies sh.strategies strategy_updates }
          (u, shards1.set sIdx sh2)

/-- Embedding of `CFRPlus::solve` (cfr_plus.h lines 176-189), sequential
semantics of the iteration loop: every one of the `nb_iterations` loop
bodies performs the same full `cfr_plus_iteration(0, 1, 1, 1)` call; there
is no player-alternation parameter. -/
def CFRPlus.solve (t : GameTree) (n2s : List Nat) (fuel : Nat) :
    List Shard → Nat → List Shard
  | shards, 0 => shards
  | shards, k + 1 =>
    CFRPlus.solve t n2s fuel (cfr_plus_iteration t n2s fuel shards 0 1 1 1).2 k

/-- The updating-player selection of `MCCFR::solve` (mccfr.h line 219):
`traversing_player = (i % 2 == 0) ? PLAYER1 : PLAYER2`, with `i` the loop
index starting at 0. -/
def MCCFR.traversing_player (i : Nat) : Nat :=
  if i % 2 = 0 then PLAYER1 else PLAYER2

/-- The updating-player selection of part_000's `solve_external_sampling` /
`solve_outcome_sampling` (lines 408, 425): `(current_iter % 2 == 0) ?
PLAYER1 : PLAYER2`, with the fetch-add counter starting at 1. -/
def MCCFR000.updating_player (current_iter : Nat) : Nat :=
  if current_iter % 2 = 0 then PLAYER1 else PLAYER2

/-! ### A concrete five-node game tree

Node 0 is a P1 decision node (`nb_children = (2<<2)+PLAYER1 = 8`) with
children node 1 and node 2; node 1 is a P2 decision node (`(2<<2)+PLAYER2 =
9`) with terminal children node 3 (payoff 1) and node 4 (payoff 0); node 2
is a terminal with payoff 0.  Shard 0 is the P1 info set, shard 1 the P2
info set. -/

/-- Concrete tree used to run the solvers. -/
def exTree : GameTree where
  nb_children := [8, 9, 0, 0, 0]
  start_children_and_actions := [0, 2, 4, 5, 6]
  children := [1, 2, 3, 4, 0, 1, 0]

/-- Node-to-shard map for `exTree`. -/
abbrev exN2S : List Nat := [0, 1, 0, 0, 0]

/-- Freshly initialized shard table for `exTree` (all regrets and cumulative
strategies zero, as in `CFRPlus::init`). -/
def exShards0 : List Shard :=
  [⟨[], [0, 0], [0, 0]⟩, ⟨[], [0, 0], [0, 0]⟩]

/-- The shard table after one `cfr_plus_iteration` on `exTree`. -/
def exFinal : List Shard :=
  [⟨[], [1/4, 0], [1/2, 1/2]⟩, ⟨[], [0, 1/4], [1/2, 1/2]⟩]

/-- Field computation lemma for `exTree`. -/
theorem exTree_nb : exTree.nb_children = [8, 9, 0, 0, 0] := rfl

/-- Field computation lemma for `exTree`. -/
theorem exTree_start : exTree.start_children_and_actions = [0, 2, 4, 5, 6] := rfl

/-- Field computation lemma for `exTree`. -/
theorem exTree_children : exTree.children = [1, 2, 3, 4, 0, 1, 0] := rfl

/-- Evaluation of one full CFR+ solve iteration on `exTree`: the P1 entry
(shard 0) receives the floored regret deltas `[1/4, 0]` and the P2 entry
(shard 1) receives `[0, 1/4]`; both players' strategy accumulators receive
`[1/2, 1/2]`. -/
theorem cfrplus_solve_one_eval :
    CFRPlus.solve exTree exN2S 3 exShards0 1 = exFinal := by
  have hterm3 : ∀ (f : Nat) (sh : List Shard) (pi1 pi2 pc : ℚ),
      ¬ (pi1 = 0 ∧ pi2 = 0) →
      cfr_plus_iteration exTree exN2S (f + 1) sh 3 pi1 pi2 pc = (1, sh) := by
    intro f sh pi1 pi2 pc h
    rw [cfr_plus_iteration, if_neg h]
    norm_num [exTree_nb, exTree_start, exTree_children]
  have hterm4 : ∀ (f : Nat) (sh : List Shard) (pi1 pi2 pc : ℚ),
      ¬ (pi1 = 0 ∧ pi2 = 0) →
      cfr_plus_iteration exTree exN2S (f + 1) sh 4 pi1 pi2 pc = (0, sh) := by
    intro f sh pi1 pi2 pc h
    rw [cfr_plus_iteration, if_neg h]
    norm_num [exTree_nb, exTree_start, exTree_children]
  have hterm2 : ∀ (f : Nat) (sh : List Shard) (pi1 pi2 pc : ℚ),
      ¬ (pi1 = 0 ∧ pi2 = 0) →
      cfr_plus_iteration exTree exN2S (f + 1) sh 2 pi1 pi2 pc = (0, sh) := by
    intro f sh pi1 pi2 pc h
    rw [cfr_plus_iteration, if_neg h]
    norm_num [exTree_nb, exTree_start, exTree_children]
  have h1 : ∀ (f : Nat),
      cfr_plus_iteration exTree exN2S (f + 2)
        [⟨[], [0, 0], [0, 0]⟩, ⟨[], [0, 0], [0, 0]⟩] 1 ((1 : ℚ)/2) 1 1 =
      (1/2, [⟨[], [0, 0], [0, 0]⟩, ⟨[], [0, 1/4], [1/2, 1/2]⟩]) := by
    intro f
    rw [cfr_plus_iteration, if_neg (by norm_num)]
    norm_num [exTree_nb, exTree_start, exTree_children,
      get_strategy_from_regrets,
      CFRPlus.add_regrets, CFRPlus.add_strategies, List.range_succ,
      PLAYER1, PLAYER2, CHANCE, Int.toNat, hterm3, hterm4]
  have h0 : ∀ (f : Nat),
      cfr_plus_iteration exTree exN2S (f + 3)
        [⟨[], [0, 0], [0, 0]⟩, ⟨[], [0, 0], [0, 0]⟩] 0 1 1 1 =
      (1/4, [⟨[], [1/4, 0], [1/2, 1/2]⟩, ⟨[], [0, 1/4], [1/2, 1/2]⟩]) := by
    intro f
    rw [cfr_plus_iteration, if_neg (by norm_num)]
    norm_num [exTree_nb, exTree_start, exTree_children,
      get_strategy_from_regrets,
      CFRPlus.add_regrets, CFRPlus.add_strategies, List.range_succ,
      PLAYER1, PLAYER2, CHANCE, Int.toNat, h1, hterm2]
  have h00 := h0 0
  norm_num [CFRPlus.solve, exShards0, exFinal] at h00 ⊢
  norm_num [h00]

/-- C3 counterexample: on the concrete tree `exTree`, the very first CFR+
solve iteration (iteration number 0, an even iteration) writes nonzero
regret deltas into both the P1 info-set entry (shard 0) and the P2 info-set
entry (shard 1): `CFRPlus::solve` dispatches the same two-player
`cfr_plus_iteration` on every iteration and does not alternate the updating
player by parity. -/
theorem C3_alternation_counterexample :
    CFRPlus.solve exTree exN2S 3 exShards0 1 = exFinal ∧
    (exFinal.getD 0 default).regrets ≠ (exShards0.getD 0 default).regrets ∧
    (exFinal.getD 1 default).regrets ≠ (exShards0.getD 1 default).regrets := by
  refine ⟨cfrplus_solve_one_eval, ?_, ?_⟩
  · norm_num [exFinal, exShards0]
  · norm_num [exFinal, exShards0]

/-- C3 (amended): the MCCFR solvers (`MCCFR::solve` in mccfr.h and
part_000's `solve_external_sampling` / `solve_outcome_sampling`) alternate
the updating player across even/odd values of the iteration counter
(even counter selects P1, odd selects P2, so consecutive iterations update
different players); the CFR-family solvers (`CFRPlus::solve`, `CFR::solve`)
instead update both players' entries in every iteration, as witnessed by one
iteration on `exTree` writing nonzero regrets into both players' shards. -/
theorem C3_alternation_amended :
    (∀ k : Nat, MCCFR.traversing_player (2 * k) = PLAYER1 ∧
      MCCFR.traversing_player (2 * k + 1) = PLAYER2 ∧
      MCCFR.traversing_player k ≠ MCCFR.traversing_player (k + 1)) ∧
    (∀ k : Nat, MCCFR000.updating_player (2 * k) = PLAYER1 ∧
      MCCFR000.updating_player (2 * k + 1) = PLAYER2) ∧
    (CFRPlus.solve exTree exN2S 3 exShards0 1 = exFinal ∧
      (exFinal.getD 0 default).regrets ≠ [0, 0] ∧
      (exFinal.getD 1 default).regrets ≠ [0, 0]) := by
  refine ⟨?_, ?_, cfrplus_solve_one_eval, ?_, ?_⟩
  · intro k
    refine ⟨?_, ?_, ?_⟩
    · simp [MCCFR.traversing_player, Nat.mul_mod_right]
    · simp [MCCFR.traversing_player, Nat.add_mod, Nat.mul_mod_right]
    · rcases Nat.mod_two_eq_zero_or_one k with h | h <;>
        simp [MCCFR.traversing_player, Nat.add_mod, h, PLAYER1, PLAYER2]
  · intro k
    constructor
    · simp [MCCFR000.updating_player, Nat.mul_mod_right]
    · simp [MCCFR000.updating_player, Nat.add_mod, Nat.mul_mod_right]
  · norm_num [exFinal]
  · norm_num [exFinal]

/-! ## Linear CFR (cfr.h)

`CFR` stores all per-info-set data in one flat array
`probas_regrets_and_strategies`; a player info set at offset `off` keeps its
`n` regrets at `off..off+n` and its `n` cumulative strategies at
`off+n..off+2n`; a chance info set keeps its `n` probabilities at
`off..off+n`. -/

/-- Embedding of `CFR::linear_cfr` (cfr.h lines 171-230) with explicit state
passing for the flat array and fuel for the index recursion.  `iter` is the
weight argument supplied by `CFR::solve`; both the regret delta and the
cumulative-strategy delta are multiplied by it. -/
def linear_cfr (t : GameTree) (off : List Nat) :
    Nat → List ℚ → Nat → ℚ → ℚ → ℚ → Nat → ℚ × List ℚ
  | 0, arr, _, _, _, _, _ => (0, arr)
  | fuel + 1, arr, idx, pi1, pi2, pc, iter =>
    if pi1 = 0 ∧ pi2 = 0 then (0, arr) else
    let start := t.start_children_and_actions.getD idx 0
    let n := t.nb_children.getD idx 0 / 4
    if n = 0 then (((t.children.getD start 0 : ℤ) : ℚ), arr) else
    let player := t.nb_children.getD idx 0 % 4
    let offset := off.getD idx 0
    if player = CHANCE then
      (List.range n).foldl
        (fun acc i =>
          let p := acc.2.getD (offset + i) 0
          let r := linear_cfr t off fuel acc.2
            (t.children.getD (start + 2 * i) 0).toNat pi1 pi2 (pc * p) iter
          (acc.1 + p * r.1, r.2))
        ((0 : ℚ), arr)
    else
      let s := linear_cfr_strategy ((List.range n).map fun i => arr.getD (offset + i) 0)
      match (List.range n).foldl
          (fun (acc : ℚ × List ℚ × List ℚ) i =>
            let si := s.getD i 0
            let r :=
              if player = PLAYER1 then
                linear_cfr t off fuel acc.2.2
                  (t.children.getD (start + i) 0).toNat (si * pi1) pi2 pc iter
              else
                linear_cfr t off fuel acc.2.2
                  (t.children.getD (start + i) 0).toNat pi1 (si * pi2) pc iter
            (acc.1 + si * r.1, acc.2.1 ++ [r.1], r.2))
          ((0 : ℚ), ([] : List ℚ), arr) with
      | (u, utils, arr1) =>
        let arr2 := (List.range n).foldl
          (fun (a : List ℚ) i =>
            let a1 := a.set (offset + i)
              (a.getD (offset + i) 0 +
                (iter : ℚ) * (if player = PLAYER1 then pi2 else pi1) * pc *
                  (if player = PLAYER1 then utils.getD i 0 - u
                   else u - utils.getD i 0))
            a1.set (offset + n + i)
              (a1.getD (offset + n + i) 0 +
                (iter : ℚ) * (if player = PLAYER1 then pi1 else pi2) *
                  s.getD i 0))
          arr1
        (u, arr2)

/-- The iteration loop of `CFR::solve` (cfr.h lines 293-316): the loop body
calls `linear_cfr(0, 1, 1, 1, iter)` where `iter` is a separate counter that
starts at 0 and is incremented after each call (the 1-based loop variable
`i` is not what is passed). -/
def CFR.solve_loop (t : GameTree) (off : List Nat) (fuel : Nat) :
    List ℚ → Nat → Nat → List ℚ
  | arr, _, 0 => arr
  | arr, iter, k + 1 =>
    CFR.solve_loop t off fuel (linear_cfr t off fuel arr 0 1 1 1 iter).2 (iter + 1) k

/-- Embedding of `CFR::solve` (cfr.h lines 293-316): run `nb_iterations`
loop bodies with the counter initialized to 0. -/
def CFR.solve (t : GameTree) (off : List Nat) (fuel : Nat)
    (arr : List ℚ) (nb_iterations : Nat) : List ℚ :=
  CFR.solve_loop t off fuel arr 0 nb_iterations

/-- Offsets into the flat array for `exTree` under `CFR`: the P1 info set of
node 0 owns slots 0..3, the P2 info set of node 1 owns slots 4..7. -/
abbrev exOff : List Nat := [0, 4, 0, 0, 0]

/-- Freshly initialized flat array for `exTree` under `CFR` (all zero, as
resized by the constructor). -/
def exArr0 : List ℚ := [0, 0, 0, 0, 0, 0, 0, 0]

/-- The flat array after one `linear_cfr` call with weight `iter = 1` on
`exTree`. -/
def exArrIterOne : List ℚ := [1/4, -1/4, 1/2, 1/2, -1/4, 1/4, 1/2, 1/2]

/-- C4: `CFR::solve` passes a counter starting at 0 to `linear_cfr`, so the
very first Linear-CFR iteration accumulates every regret and every
cumulative-strategy delta with weight 0, leaving the table unchanged; a
first iteration with the claimed 1-based weight `t = 1` would instead write
the nonzero deltas `iter * pi_opp * pi_c * (u_a - v)` and
`iter * pi_p * sigma[a]` shown in `exArrIterOne`. -/
theorem C4_first_iteration_weight_zero :
    CFR.solve exTree exOff 3 exArr0 1 = exArr0 ∧
    (linear_cfr exTree exOff 3 exArr0 0 1 1 1 1).2 = exArrIterOne ∧
    exArrIterOne ≠ exArr0 := by
  have hterm3 : ∀ (f : Nat) (a : List ℚ) (pi1 pi2 pc : ℚ) (it : Nat),
      ¬ (pi1 = 0 ∧ pi2 = 0) →
      linear_cfr exTree exOff (f + 1) a 3 pi1 pi2 pc it = (1, a) := by
    intro f a pi1 pi2 pc it h
    rw [linear_cfr, if_neg h]
    norm_num [exTree_nb, exTree_start, exTree_children]
  have hterm4 : ∀ (f : Nat) (a : List ℚ) (pi1 pi2 pc : ℚ) (it : Nat),
      ¬ (pi1 = 0 ∧ pi2 = 0) →
      linear_cfr exTree exOff (f + 1) a 4 pi1 pi2 pc it = (0, a) := by
    intro f a pi1 pi2 pc it h
    rw [linear_cfr, if_neg h]
    norm_num [exTree_nb, exTree_start, exTree_children]
  have hterm2 : ∀ (f : Nat) (a : List ℚ) (pi1 pi2 pc : ℚ) (it : Nat),
      ¬ (pi1 = 0 ∧ pi2 = 0) →
      linear_cfr exTree exOff (f + 1) a 2 pi1 pi2 pc it = (0, a) := by
    intro f a pi1 pi2 pc it h
    rw [linear_cfr, if_neg h]
    norm_num [exTree_nb, exTree_start, exTree_children]
  have h1z : ∀ (f : Nat),
      linear_cfr exTree exOff (f + 2)
        [0, 0, 0, 0, 0, 0, 0, 0] 1 ((1 : ℚ)/2) 1 1 0 =
      (1/2, [0, 0, 0, 0, 0, 0, 0, 0]) := by
    intro f
    rw [linear_cfr, if_neg (by norm_num)]
    norm_num [exTree_nb, exTree_start, exTree_children,
      linear_cfr_strategy, List.range_succ,
      PLAYER1, PLAYER2, CHANCE, Int.toNat, hterm3, hterm4]
  have h0z : ∀ (f : Nat),
      linear_cfr exTree exOff (f + 3)
        [0, 0, 0, 0, 0, 0, 0, 0] 0 1 1 1 0 =
      (1/4, [0, 0, 0, 0, 0, 0, 0, 0]) := by
    intro f
    rw [linear_cfr, if_neg (by norm_num)]
    norm_num [exTree_nb, exTree_start, exTree_children,
      linear_cfr_strategy, List.range_succ,
      PLAYER1, PLAYER2, CHANCE, Int.toNat, h1z, hterm2]
  have h1o : ∀ (f : Nat),
      linear_cfr exTree exOff (f + 2)
        [0, 0, 0, 0, 0, 0, 0, 0] 1 ((1 : ℚ)/2) 1 1 1 =
      (1/2, [0, 0, 0, 0, -1/4, 1/4, 1/2, 1/2]) := by
    intro f
    rw [linear_cfr, if_neg (by norm_num)]
    norm_num [exTree_nb, exTree_start, exTree_children,
      linear_cfr_strategy, List.range_succ,
      PLAYER1, PLAYER2, CHANCE, Int.toNat, hterm3, hterm4]
  have h0o : ∀ (f : Nat),
      linear_cfr exTree exOff (f + 3)
        [0, 0, 0, 0, 0, 0, 0, 0] 0 1 1 1 1 =
      (1/4, [1/4, -1/4, 1/2, 1/2, -1/4, 1/4, 1/2, 1/2]) := by
    intro f
    rw [linear_cfr, if_neg (by norm_num)]
    norm_num [exTree_nb, exTree_start, exTree_children,
      linear_cfr_strategy, List.range_succ,
      PLAYER1, PLAYER2, CHANCE, Int.toNat, h1o, hterm2]
  refine ⟨?_, ?_, by norm_num [exArrIterOne, exArr0]⟩
  · have hz := h0z 0
    norm_num [CFR.solve, CFR.solve_loop, exArr0] at hz ⊢
    norm_num [hz]
  · have ho := h0o 0
    norm_num [exArr0, exArrIterOne] at ho ⊢
    norm_num [ho]

/-! ## SimplePoker (simple_poker.h)

The game state is a 3-bit-per-ply action history packed in a `uint32_t`
together with a ply counter.  `play` ORs the action into the next 3-bit
slot; `undo` decrements the counter and clears that slot with
`action_history &= ~(0b111 << nb_plies*3)`.  Action codes: CHECK = 0,
BET = 1, CALL = 2, FOLD = 3, HL = 4, LL = 5, HH = 6, END = 7. -/

/-- SimplePoker mutable state: `action_history` and `nb_plies`
(simple_poker.h lines 25-26). -/
structure SimplePoker where
  action_history : Nat
  nb_plies : Nat
deriving DecidableEq

/-- Compile-time constant `SimplePoker::MAX_NB_PLAYER_ACTIONS = 2`
(simple_poker.h line 22). -/
def SimplePoker.MAX_NB_PLAYER_ACTIONS : Nat := 2

/-- The state after `SimplePoker::reset` (and after default construction):
both fields zero. -/
def SimplePoker.reset : SimplePoker := ⟨0, 0⟩

/-- Embedding of `SimplePoker::play` (simple_poker.h lines 69-72). -/
def SimplePoker.play (g : SimplePoker) (a : Nat) : SimplePoker :=
  ⟨g.action_history ||| (a <<< (g.nb_plies * 3)), g.nb_plies + 1⟩

/-- All 32 bits set: the value of `~0b000...0` truncated to `uint32_t`,
through which the source's `action_history &= ~(0b111 << k)` is expressed
over `Nat`. -/
def UINT32_MASK : Nat := 2 ^ 32 - 1

/-- Embedding of `SimplePoker::undo` (simple_poker.h lines 73-76): decrement
`nb_plies`, then clear the 3-bit slot at the new ply position. -/
def SimplePoker.undo (g : SimplePoker) (a : Nat) : SimplePoker :=
  ⟨g.action_history &&& (UINT32_MASK ^^^ (7 <<< ((g.nb_plies - 1) * 3))),
    g.nb_plies - 1⟩

/-- Embedding of `SimplePoker::get_state` (simple_poker.h lines 50-52). -/
def SimplePoker.get_state (g : SimplePoker) : Nat :=
  (g.nb_plies <<< 15) ||| g.action_history

/-- Embedding of `SimplePoker::get_action` (simple_poker.h lines 80-82). -/
def SimplePoker.get_action (g : SimplePoker) (i : Nat) : Nat :=
  (g.action_history &&& (7 <<< (i * 3))) >>> (i * 3)

/-- Embedding of `SimplePoker::game_over` (simple_poker.h lines 83-85). -/
def SimplePoker.game_over (g : SimplePoker) : Bool :=
  (g.nb_plies == 5) || ((g.nb_plies == 4) && (g.get_action 3 != 1))

/-- The `ACTIONS` table of simple_poker.h lines 86-90, with the enum encoded
numerically: `[HH, LL, HL, END, CHECK, BET, END, FOLD, CALL, END]`. -/
def SimplePoker.ACTIONS : List Nat := [6, 5, 4, 7, 0, 1, 7, 3, 2, 7]

/-- The `DELTAS` table of simple_poker.h lines 91-93. -/
def SimplePoker.DELTAS : List Nat := [0, 0, 4, 4, 7]

/-- Embedding of `SimplePoker::actions` (simple_poker.h lines 94-104): start
at `DELTAS[nb_plies]`, shifted by 3 when ply 3 follows a BET, and collect
until the END sentinel. -/
def SimplePoker.actions (g : SimplePoker) : List Nat :=
  let start := SimplePoker.DELTAS.getD g.nb_plies 0 +
    (if g.nb_plies = 3 ∧ g.get_action 2 = 1 then 3 else 0)
  (SimplePoker.ACTIONS.drop start).takeWhile (· ≠ 7)

/-- The states visited by the game-tree build (`GameTree::build_tree`):
start from the freshly constructed game and repeatedly play a legal action
at a non-terminal state. -/
inductive SimplePoker.Reachable : SimplePoker → Prop
  | rst : SimplePoker.Reachable SimplePoker.reset
  | step (g : SimplePoker) (a : Nat) : SimplePoker.Reachable g →
      g.game_over = false → a ∈ g.actions → SimplePoker.Reachable (g.play a)

/-- Every legal SimplePoker action code fits in 3 bits. -/
theorem SimplePoker.action_lt_eight (g : SimplePoker) (a : Nat)
    (ha : a ∈ g.actions) : a < 8 := by
  have hmem : a ∈ SimplePoker.ACTIONS := by
    have hsub : ((SimplePoker.ACTIONS.drop
        (SimplePoker.DELTAS.getD g.nb_plies 0 +
          (if g.nb_plies = 3 ∧ g.get_action 2 = 1 then 3 else 0))).takeWhile
            (· ≠ 7)).Sublist SimplePoker.ACTIONS :=
      (List.takeWhile_sublist _).trans (List.drop_sublist _ _)
    exact hsub.subset ha
  have hall : ∀ x ∈ SimplePoker.ACTIONS, x < 8 := by decide
  exact hall a hmem

/-- Tree-build invariant of SimplePoker: along reachable states the packed
action history only occupies the low `3 * nb_plies` bits, and at most 5
plies are ever played. -/
theorem SimplePoker.reachable_inv (g : SimplePoker)
    (h : SimplePoker.Reachable g) :
    g.action_history < 2 ^ (g.nb_plies * 3) ∧ g.nb_plies ≤ 5 := by
  induction h with
  | rst => exact ⟨by norm_num [SimplePoker.reset], by norm_num [SimplePoker.reset]⟩
  | step g a hg hover hmem ih =>
    obtain ⟨ih1, ih2⟩ := ih
    have ha8 : a < 8 := SimplePoker.action_lt_eight g a hmem
    have hp4 : g.nb_plies ≤ 4 := by
      by_contra hc
      have h5 : g.nb_plies = 5 := by omega
      simp [SimplePoker.game_over, h5] at hover
    constructor
    · show g.action_history ||| (a <<< (g.nb_plies * 3)) <
        2 ^ ((g.nb_plies + 1) * 3)
      have hb1 : g.action_history < 2 ^ ((g.nb_plies + 1) * 3) :=
        lt_of_lt_of_le ih1 (Nat.pow_le_pow_right (by norm_num) (by omega))
      have hb2 : a <<< (g.nb_plies * 3) < 2 ^ ((g.nb_plies + 1) * 3) := by
        rw [Nat.shiftLeft_eq]
        calc a * 2 ^ (g.nb_plies * 3)
            < 8 * 2 ^ (g.nb_plies * 3) := by
              have hpow : 0 < 2 ^ (g.nb_plies * 3) := Nat.pos_pow_of_pos _ (by norm_num)
              exact (Nat.mul_lt_mul_right hpow).mpr ha8
          _ = 2 ^ (3 + g.nb_plies * 3) := by
              rw [pow_add]
              norm_num
          _ ≤ 2 ^ ((g.nb_plies + 1) * 3) :=
              Nat.pow_le_pow_right (by norm_num) (by omega)
      exact Nat.bitwise_lt_two_pow hb1 hb2
    · simp only [SimplePoker.play]
      omega

/-- Clearing the freshly written 3-bit slot of the OR recovers the original
history: the bit-level core of the SimplePoker play/undo round trip. -/
theorem lor_and_mask_cancel (h a p : Nat) (hh : h < 2 ^ (p * 3)) (ha : a < 8)
    (hp : p ≤ 4) :
    (h ||| (a <<< (p * 3))) &&& (UINT32_MASK ^^^ (7 <<< (p * 3))) = h := by
  apply Nat.eq_of_testBit_eq
  intro i
  simp only [UINT32_MASK, Nat.testBit_land, Nat.testBit_lor, Nat.testBit_xor,
    Nat.testBit_shiftLeft, Nat.testBit_two_pow_sub_one]
  by_cases h1 : i < p * 3
  · have hna : ¬ (i ≥ p * 3) := by omega
    have h32 : i < 32 := by omega
    simp [hna, h32]
  · have hge : i ≥ p * 3 := by omega
    have hhb : h.testBit i = false :=
      Nat.testBit_eq_false_of_lt
        (lt_of_lt_of_le hh (Nat.pow_le_pow_right (by norm_num) (by omega)))
    by_cases h2 : i < p * 3 + 3
    · have h7 : (7 : Nat).testBit (i - p * 3) = true := by
        have hk3 : i - p * 3 < 3 := by omega
        interval_cases hk : (i - p * 3) <;> decide
      have h32 : i < 32 := by omega
      simp [hge, h7, h32, hhb]
    · have h7 : (7 : Nat).testBit (i - p * 3) = false := by
        apply Nat.testBit_eq_false_of_lt
        calc (7 : Nat) < 2 ^ 3 := by norm_num
          _ ≤ 2 ^ (i - p * 3) := Nat.pow_le_pow_right (by norm_num) (by omega)
      have hab : a.testBit (i - p * 3) = false := by
        apply Nat.testBit_eq_false_of_lt
        calc a < 2 ^ 3 := by omega
          _ ≤ 2 ^ (i - p * 3) := Nat.pow_le_pow_right (by norm_num) (by omega)
      simp [hge, h7, hab, hhb]

/-- C7 (amended): for SimplePoker, at every state reached during the tree
build and for every legal action there, `undo(a)` after `play(a)` restores
the full state, and in particular `get_state()` is unchanged.  (For
PostflopPoker the analogous round trip fails; see the counterexample.) -/
theorem C7_simplepoker_roundtrip (g : SimplePoker)
    (hr : SimplePoker.Reachable g) (hover : g.game_over = false) (a : Nat)
    (ha : a ∈ g.actions) :
    (g.play a).undo a = g ∧ ((g.play a).undo a).get_state = g.get_state := by
  obtain ⟨hh, hp5⟩ := SimplePoker.reachable_inv g hr
  have ha8 : a < 8 := SimplePoker.action_lt_eight g a ha
  have hp4 : g.nb_plies ≤ 4 := by
    by_contra hc
    have h5 : g.nb_plies = 5 := by omega
    simp [SimplePoker.game_over, h5] at hover
  have hmain : (g.play a).undo a = g := by
    cases g with
    | mk h p =>
      simp only [SimplePoker.play, SimplePoker.undo, Nat.add_sub_cancel]
      congr 1
      exact lor_and_mask_cancel h a p hh ha8 hp4
  exact ⟨hmain, by rw [hmain]⟩

/-- Witness for C7: the round trip applied at the initial state and the
chance action HH. -/
theorem C7_simplepoker_roundtrip_witness :
    SimplePoker.reset.game_over = false ∧ 6 ∈ SimplePoker.reset.actions ∧
    (SimplePoker.reset.play 6).undo 6 = SimplePoker.reset :=
  ⟨by decide, by decide,
    (C7_simplepoker_roundtrip SimplePoker.reset .rst (by decide) 6
      (by decide)).1⟩

/-! ## The info-set entry of part_000's MCCFR (C1)

part_000 line 38 declares the entry storage as
`std::array<double, Game::MAX_NB_PLAYER_ACTIONS> regrets_and_strategies`,
i.e. `MAX_NB_PLAYER_ACTIONS` slots, while `add_regret_and_strategies`
(lines 44-58) receives a `2 * MAX_NB_PLAYER_ACTIONS`-wide delta array and
writes the entry at indices `0 .. 2n-1`, and `fill_strategy` (line 481)
reads the entry at indices `n .. 2n-1`. -/

/-- The declared length of `Shard::regrets_and_strategies` in part_000
(line 38): `MAX_NB_PLAYER_ACTIONS`, not `2 * MAX_NB_PLAYER_ACTIONS`. -/
def MCCFR000.shard_storage_len (maxPlayerActions : Nat) : Nat :=
  maxPlayerActions

/-- The length of the `values` parameter of `add_regret_and_strategies`
(part_000 line 44). -/
def MCCFR000.values_len (maxPlayerActions : Nat) : Nat :=
  2 * maxPlayerActions

/-- The storage indices written by one `add_regret_and_strategies` call for
an entry with `n` actions (part_000 lines 54-56): `0 .. 2n-1`. -/
def MCCFR000.accumulate_write_indices (n : Nat) : List Nat :=
  List.range (2 * n)

/-- The storage index read by `fill_strategy` for cumulative-strategy slot
`i` of an entry with `n` actions (part_000 line 481). -/
def MCCFR000.fill_strategy_read_index (n i : Nat) : Nat := n + i

/-- The SimplePoker state after dealing HH to player 1 and HL to player 2:
the first player decision node of the tree build. -/
def spAfterDeal : SimplePoker := (SimplePoker.reset.play 6).play 4

/-- C1 evaluation: SimplePoker player info sets have `n = 2` actions while
`MAX_NB_PLAYER_ACTIONS = 2`, so `add_regret_and_strategies` writes index
`2*n - 1 = 3` (and `fill_strategy` reads index `n + (n-1) = 3`) in a
storage array of declared length 2: the element-wise writes of the
accumulate operation do NOT stay within the entry's storage bounds. -/
theorem C1_storage_overflow :
    SimplePoker.MAX_NB_PLAYER_ACTIONS = 2 ∧
    SimplePoker.Reachable spAfterDeal ∧
    spAfterDeal.actions.length = 2 ∧
    3 ∈ MCCFR000.accumulate_write_indices spAfterDeal.actions.length ∧
    ¬ (3 < MCCFR000.shard_storage_len SimplePoker.MAX_NB_PLAYER_ACTIONS) ∧
    ¬ (MCCFR000.fill_strategy_read_index 2 1 <
        MCCFR000.shard_storage_len SimplePoker.MAX_NB_PLAYER_ACTIONS) ∧
    MCCFR000.values_len SimplePoker.MAX_NB_PLAYER_ACTIONS = 4 := by
  refine ⟨rfl, ?_, by decide, by decide, by decide, by decide, rfl⟩
  exact SimplePoker.Reachable.step _ 4
    (SimplePoker.Reachable.step _ 6 .rst (by decide) (by decide))
    (by decide) (by decide)

/-! ## PostflopPoker (part_010, lines 506-1244)

Cards are 0..51, `INVALID_CARD = 63`.  Betting actions: FOLD = 0, CHECK = 1,
CALL = 2, BET_HALF_POT = 3, BET_POT = 4, RAISE_POT = 5, ALL_IN = 6; deal
actions are `DEAL_HANDS_START = 7` upward.  Streets: INITIAL_DEAL = 0,
FLOP_BETTING = 1, TURN_DEAL = 2, TURN_BETTING = 3, RIVER_DEAL = 4,
RIVER_BETTING = 5, SHOWDOWN = 6.  The betting history packs 4 bits per
action into a `uint64_t`. -/

/-- PostflopPoker state and configuration (part_010 lines 551-574), with
the range probabilities (C++ `double`) modelled as rationals. -/
structure PostflopPoker where
  flop_cards : List Nat
  range_p1 : List ((Nat × Nat) × ℚ)
  range_p2 : List ((Nat × Nat) × ℚ)
  starting_pot : Int
  starting_stack_p1 : Int
  starting_stack_p2 : Int
  p1_hole0 : Nat
  p1_hole1 : Nat
  p2_hole0 : Nat
  p2_hole1 : Nat
  turn_card : Nat
  river_card : Nat
  street : Nat
  pot : Int
  stack_p1 : Int
  stack_p2 : Int
  bet_this_street : Int
  to_call : Int
  action_history : Nat
  num_actions : Nat
deriving DecidableEq

/-- All 64 bits set, through which the source's
`action_history &= ~(0xFULL << k)` is expressed over `Nat`. -/
def UINT64_MASK : Nat := 2 ^ 64 - 1

/-- Embedding of `PostflopPoker::get_last_action` (part_010 lines 903-906). -/
def PostflopPoker.get_last_action (g : PostflopPoker) : Nat :=
  if g.num_actions = 0 then 1
  else (g.action_history >>> ((g.num_actions - 1) * 4)) &&& 15

/-- Embedding of `PostflopPoker::game_over` (part_010 lines 697-699). -/
def PostflopPoker.game_over (g : PostflopPoker) : Bool :=
  g.street == 6

/-- Embedding of `PostflopPoker::is_chance_player` (part_010 lines 701-703). -/
def PostflopPoker.is_chance_player (g : PostflopPoker) : Bool :=
  g.street == 0 || g.street == 2 || g.street == 4

/-- Embedding of `PostflopPoker::current_player` (part_010 lines 705-736). -/
def PostflopPoker.current_player (g : PostflopPoker) : Nat :=
  if g.is_chance_player then 2
  else if g.game_over then 2
  else if g.num_actions = 0 then 0
  else if g.get_last_action = 0 then 2
  else if 2 ≤ g.num_actions ∧ g.get_last_action = 1 ∧ g.to_call = 0 ∧
      ((g.action_history >>> ((g.num_actions - 2) * 4)) &&& 15) = 1 then 2
  else if g.get_last_action = 2 then 2
  else if g.num_actions % 2 = 0 then 0 else 1

/-- Embedding of `PostflopPoker::advance_street` (part_010 lines 908-925). -/
def PostflopPoker.advance_street (g : PostflopPoker) : PostflopPoker :=
  { g with
    street :=
      if g.street = 1 then 2
      else if g.street = 3 then 4
      else if g.street = 5 then 6
      else g.street,
    bet_this_street := 0, to_call := 0, num_actions := 0 }

/-- Embedding of `PostflopPoker::cards_conflict` (part_010 lines 927-930):
true when the card list contains a duplicate. -/
def PostflopPoker.cards_conflict (cards : List Nat) : Bool :=
  cards.dedup.length != cards.length

/-- Embedding of `PostflopPoker::actions` (part_010 lines 932-990). -/
def PostflopPoker.actions (g : PostflopPoker) : List Nat :=
  if g.street = 0 then
    ((List.range g.range_p1.length).map fun i =>
      (List.range g.range_p2.length).filterMap fun j =>
        let all_cards := [g.flop_cards.getD 0 0, g.flop_cards.getD 1 0,
          g.flop_cards.getD 2 0,
          (g.range_p1.getD i default).1.1, (g.range_p1.getD i default).1.2,
          (g.range_p2.getD j default).1.1, (g.range_p2.getD j default).1.2]
        if PostflopPoker.cards_conflict all_cards then none
        else some (7 + i * g.range_p2.length + j)).flatten
  else if g.street = 2 ∨ g.street = 4 then
    let used := g.flop_cards ++
      [g.p1_hole0, g.p1_hole1, g.p2_hole0, g.p2_hole1] ++
      (if g.turn_card ≠ 63 then [g.turn_card] else [])
    (List.range 52).filter fun c => !(used.contains c)
  else
    if 0 < g.to_call then
      [0, 2] ++
        (if g.to_call < g.stack_p1 ∧ g.to_call < g.stack_p2 then [5] else []) ++
        [6]
    else
      [1] ++ (if 0 < g.stack_p1 ∧ 0 < g.stack_p2 then [3, 4] else []) ++ [6]

/-- Embedding of `PostflopPoker::play` (part_010 lines 738-859). -/
def PostflopPoker.play (g : PostflopPoker) (a : Nat) : PostflopPoker :=
  if g.street = 0 then
    let g1 :=
      if g.range_p1 ≠ [] ∧ g.range_p2 ≠ [] then
        let combo_idx := a - 7
        if combo_idx < g.range_p1.length * g.range_p2.length then
          let p1i := combo_idx / g.range_p2.length
          let p2i := combo_idx % g.range_p2.length
          { g with
            p1_hole0 := (g.range_p1.getD p1i default).1.1,
            p1_hole1 := (g.range_p1.getD p1i default).1.2,
            p2_hole0 := (g.range_p2.getD p2i default).1.1,
            p2_hole1 := (g.range_p2.getD p2i default).1.2 }
        else g
      else g
    { g1 with street := 1, bet_this_street := 0, to_call := 0 }
  else if g.street = 2 then
    { g with turn_card := a, street := 3, bet_this_street := 0, to_call := 0 }
  else if g.street = 4 then
    { g with river_card := a, street := 5, bet_this_street := 0, to_call := 0 }
  else
    let current := g.current_player
    let g1 := { g with
      action_history := g.action_history ||| (a <<< (g.num_actions * 4)),
      num_actions := g.num_actions + 1 }
    if a = 0 then { g1 with street := 6 }
    else if a = 1 then
      if g1.to_call = 0 then
        if 2 ≤ g1.num_actions ∧ g1.get_last_action = 1 then g1.advance_street
        else g1
      else g1
    else if a = 2 then
      let g2 :=
        if current = 0 then
          { g1 with pot := g1.pot + g1.to_call,
                    stack_p1 := g1.stack_p1 - g1.to_call }
        else
          { g1 with pot := g1.pot + g1.to_call,
                    stack_p2 := g1.stack_p2 - g1.to_call }
      ({ g2 with to_call := 0 }).advance_street
    else if a = 3 then
      let bet_size := g1.pot.tdiv 2
      let g2 :=
        if current = 0 then
          { g1 with pot := g1.pot + bet_size, stack_p1 := g1.stack_p1 - bet_size }
        else
          { g1 with pot := g1.pot + bet_size, stack_p2 := g1.stack_p2 - bet_size }
      { g2 with bet_this_street := bet_size, to_call := bet_size }
    else if a = 4 then
      let bet_size := g1.pot
      let g2 :=
        if current = 0 then
          { g1 with pot := g1.pot + bet_size, stack_p1 := g1.stack_p1 - bet_size }
        else
          { g1 with pot := g1.pot + bet_size, stack_p2 := g1.stack_p2 - bet_size }
      { g2 with bet_this_street := bet_size, to_call := bet_size }
    else if a = 5 then
      let raise_size := g1.pot + g1.to_call
      let g2 :=
        if current = 0 then
          { g1 with pot := g1.pot + raise_size,
                    stack_p1 := g1.stack_p1 - raise_size }
        else
          { g1 with pot := g1.pot + raise_size,
                    stack_p2 := g1.stack_p2 - raise_size }
      { g2 with bet_this_street := g2.bet_this_street + raise_size,
                to_call := g2.bet_this_street + raise_size }
    else if a = 6 then
      let bet_size := if current = 0 then g1.stack_p1 else g1.stack_p2
      let g2 :=
        if current = 0 then
          { g1 with pot := g1.pot + bet_size, stack_p1 := 0 }
        else
          { g1 with pot := g1.pot + bet_size, stack_p2 := 0 }
      { g2 with to_call := bet_size - g2.to_call }
    else g1

/-- Embedding of `PostflopPoker::undo` (part_010 lines 861-901); the source
comments there that this is a simplified version and directs callers to
`set_state` for exact restoration. -/
def PostflopPoker.undo (g : PostflopPoker) (a : Nat) : PostflopPoker :=
  if g.street = 6 then { g with street := 5 }
  else if g.street = 5 then
    if 0 < g.num_actions then
      { g with
        num_actions := g.num_actions - 1,
        action_history := g.action_history &&&
          (UINT64_MASK ^^^ (15 <<< ((g.num_actions - 1) * 4))) }
    else { g with street := 4, river_card := 63 }
  else if g.street = 4 then { g with street := 3 }
  else if g.street = 3 then
    if 0 < g.num_actions then
      { g with
        num_actions := g.num_actions - 1,
        action_history := g.action_history &&&
          (UINT64_MASK ^^^ (15 <<< ((g.num_actions - 1) * 4))) }
    else { g with street := 2, turn_card := 63 }
  else if g.street = 2 then { g with street := 1 }
  else if g.street = 1 then
    if 0 < g.num_actions then
      { g with
        num_actions := g.num_actions - 1,
        action_history := g.action_history &&&
          (UINT64_MASK ^^^ (15 <<< ((g.num_actions - 1) * 4))) }
    else { g with street := 0 }
  else g

/-- Embedding of `PostflopPoker::get_state` (part_010 lines 642-653): holes,
turn, river, street and the betting history packed into one word; pot and
stacks are not part of the state. -/
def PostflopPoker.get_state (g : PostflopPoker) : Nat :=
  g.p1_hole0 ||| (g.p1_hole1 <<< 6) ||| (g.p2_hole0 <<< 12) |||
  (g.p2_hole1 <<< 18) ||| (g.turn_card <<< 24) ||| (g.river_card <<< 30) |||
  (g.street <<< 36) ||| (g.action_history <<< 40)

/-- States visited by a game-tree build driven from the start state `g0`:
plays of legal actions at non-terminal states. -/
inductive PostflopPoker.ReachableFrom (g0 : PostflopPoker) :
    PostflopPoker → Prop
  | start : PostflopPoker.ReachableFrom g0 g0
  | step (g : PostflopPoker) (a : Nat) : PostflopPoker.ReachableFrom g0 g →
      g.game_over = false → a ∈ g.actions →
      PostflopPoker.ReachableFrom g0 (g.play a)

/-- A solver-constructed PostflopPoker (part_010 constructor lines 586-598
followed by `reset()`): flop (0,1,2), a single hand (4,5) for P1 and (6,7)
for P2, pot 20, stacks 100. -/
def ppStart : PostflopPoker where
  flop_cards := [0, 1, 2]
  range_p1 := [((4, 5), 1)]
  range_p2 := [((6, 7), 1)]
  starting_pot := 20
  starting_stack_p1 := 100
  starting_stack_p2 := 100
  p1_hole0 := 63
  p1_hole1 := 63
  p2_hole0 := 63
  p2_hole1 := 63
  turn_card := 63
  river_card := 63
  street := 0
  pot := 20
  stack_p1 := 100
  stack_p2 := 100
  bet_this_street := 0
  to_call := 0
  action_history := 0
  num_actions := 0

/-- The state after the deal and one P1 CHECK: flop betting street with one
recorded action. -/
def ppS1 : PostflopPoker := (ppStart.play 7).play 1

/-- C7 counterexample: at the tree-build-reachable PostflopPoker state
`ppS1` the legal action CHECK does not round-trip: the second CHECK advances
the street (resetting `num_actions` but keeping the history nibbles), and
`undo` only steps the street back, so `get_state()` after `play(CHECK);
undo(CHECK)` differs from its prior value (the history field now contains
both CHECK nibbles). -/
theorem C7_postflop_undo_counterexample :
    PostflopPoker.ReachableFrom ppStart ppS1 ∧
    ppS1.game_over = false ∧
    1 ∈ ppS1.actions ∧
    ((ppS1.play 1).undo 1).get_state ≠ ppS1.get_state := by
  refine ⟨?_, by decide, by decide, by decide⟩
  exact PostflopPoker.ReachableFrom.step _ 1
    (PostflopPoker.ReachableFrom.step _ 7 PostflopPoker.ReachableFrom.start
      (by decide) (by decide))
    (by decide) (by decide)

/-- Element access into a mapped range: the `i`-th entry of
`(range n).map f` is `f i`. -/
theorem range_map_getD {α : Type} (f : Nat → α) (n i : Nat) (d : α)
    (h : i < n) : ((List.range n).map f).getD i d = f i := by
  rw [List.getD_eq_getElem?_getD, List.getElem?_map, List.getElem?_range h]
  rfl

/-- A `getD` at an in-bounds index is a member of the list. -/
theorem getD_mem_of_lt {α : Type} (l : List α) (i : Nat) (d : α)
    (h : i < l.length) : l.getD i d ∈ l := by
  rw [List.getD_eq_getElem?_getD, List.getElem?_eq_getElem h]
  exact List.getElem_mem h

/-! ## Best response (best_response.h)

`fill_best_response` aggregates, for each action `i`, the reach-weighted
child values over all states of the acting player's info set, then scans
for the maximum with a strict comparison against a running best initialized
to the numeric type's lowest value, and finally writes a pure strategy: `n`
zeros with a single 1 at the selected action. -/

/-- The selection loop of `fill_best_response` (best_response.h lines
67-74): `best_value` starts at `lowest()` (modelled by `none`, which every
finite value beats) and `utils[i] > best_value` updates strictly, so the
first index attaining the maximum is kept. -/
def fill_best_response_select_go : List ℚ → Nat → Nat → Option ℚ → Nat
  | [], _, bi, _ => bi
  | u :: rest, i, bi, bv =>
    match bv with
    | none => fill_best_response_select_go rest (i + 1) i (some u)
    | some b =>
      if b < u then fill_best_response_select_go rest (i + 1) i (some u)
      else fill_best_response_select_go rest (i + 1) bi (some b)

/-- The selected best action for a utils vector (best_response.h lines
67-74). -/
def fill_best_response_select (utils : List ℚ) : Nat :=
  fill_best_response_select_go utils 0 0 none

/-- The strategy row written for the info set by `fill_best_response`
(best_response.h lines 75-82): zeros with probability 1 at the best
action. -/
def best_response_row (n best : Nat) : List ℚ :=
  (List.range n).map fun i => if i = best then 1 else 0

/-- The reach-weighted aggregation over the info set's states
(best_response.h lines 42-65): `utils[i] = Σ_s reach(s) · value(child_i(s))`
where `reach` multiplies the chance reach probability with the opponent's
strategy probabilities along the path to `s`. -/
def fill_best_response_utils {σ : Type} (states : List σ) (reach : σ → ℚ)
    (childVal : σ → Nat → ℚ) (n : Nat) : List ℚ :=
  (List.range n).map fun i => (states.map fun s => reach s * childVal s i).sum

/-- If no remaining util beats the running best, the selection keeps the
recorded index. -/
theorem select_go_of_all_le (l : List ℚ) :
    ∀ (i bi : Nat) (b : ℚ), (∀ x ∈ l, x ≤ b) →
    fill_best_response_select_go l i bi (some b) = bi := by
  induction l with
  | nil => intro i bi b _; rfl
  | cons u rest ih =>
    intro i bi b hall
    have hu : u ≤ b := hall u (List.mem_cons_self u rest)
    rw [fill_best_response_select_go]
    rw [if_neg (not_lt.mpr hu)]
    exact ih (i + 1) bi b fun x hx => hall x (List.mem_cons_of_mem u hx)

/-- If some remaining util beats the running best, the selection returns the
first index of the maximum of the remainder. -/
theorem select_go_of_exists_gt (l : List ℚ) :
    ∀ (i bi : Nat) (b : ℚ), (∃ x ∈ l, b < x) →
    ∃ j, j < l.length ∧
      fill_best_response_select_go l i bi (some b) = i + j ∧
      b < l.getD j 0 ∧ (∀ k < l.length, l.getD k 0 ≤ l.getD j 0) ∧
      (∀ k < j, l.getD k 0 < l.getD j 0) := by
  induction l with
  | nil => intro i bi b h; simp at h
  | cons u rest ih =>
    intro i bi b hex
    rw [fill_best_response_select_go]
    by_cases hu : b < u
    · rw [if_pos hu]
      by_cases hall : ∀ x ∈ rest, x ≤ u
      · refine ⟨0, by simp, ?_, by simpa using hu, ?_, by omega⟩
        · rw [select_go_of_all_le rest (i + 1) i u hall]
          omega
        · intro k hk
          cases k with
          | zero => simp
          | succ m =>
            simp only [List.getD_cons_succ, List.getD_cons_zero]
            exact hall _ (getD_mem_of_lt rest m 0 (by simpa using hk))
      · push_neg at hall
        obtain ⟨x, hx, hxgt⟩ := hall
        obtain ⟨j, hjlen, hjeq, hjgt, hjmax, hjfirst⟩ :=
          ih (i + 1) i u ⟨x, hx, hxgt⟩
        refine ⟨j + 1, by simpa using Nat.succ_lt_succ hjlen, ?_, ?_, ?_, ?_⟩
        · rw [hjeq]; omega
        · simpa using hu.trans hjgt
        · intro k hk
          cases k with
          | zero => simpa using hjgt.le
          | succ m =>
            simp only [List.getD_cons_succ]
            exact hjmax m (by simpa using hk)
        · intro k hk
          cases k with
          | zero => simpa using hjgt
          | succ m =>
            simp only [List.getD_cons_succ]
            exact hjfirst m (by omega)
    · rw [if_neg hu]
      have hex' : ∃ x ∈ rest, b < x := by
        obtain ⟨x, hx, hxgt⟩ := hex
        rcases List.mem_cons.mp hx with rfl | hx'
        · exact absurd hxgt hu
        · exact ⟨x, hx', hxgt⟩
      obtain ⟨j, hjlen, hjeq, hjgt, hjmax, hjfirst⟩ := ih (i + 1) bi b hex'
      have hub : u ≤ b := not_lt.mp hu
      refine ⟨j + 1, by simpa using Nat.succ_lt_succ hjlen, ?_, ?_, ?_, ?_⟩
      · rw [hjeq]; omega
      · simpa using hjgt
      · intro k hk
        cases k with
        | zero => simpa using (lt_of_le_of_lt hub hjgt).le
        | succ m =>
          simp only [List.getD_cons_succ]
          exact hjmax m (by simpa using hk)
      · intro k hk
        cases k with
        | zero => simpa using lt_of_le_of_lt hub hjgt
        | succ m =>
          simp only [List.getD_cons_succ]
          exact hjfirst m (by omega)

/-- The selection returns the least index of the maximum entry. -/
theorem fill_best_response_select_spec (l : List ℚ) (hne : l ≠ []) :
    fill_best_response_select l < l.length ∧
    (∀ k < l.length,
      l.getD k 0 ≤ l.getD (fill_best_response_select l) 0) ∧
    (∀ k < fill_best_response_select l,
      l.getD k 0 < l.getD (fill_best_response_select l) 0) := by
  cases l with
  | nil => exact absurd rfl hne
  | cons u rest =>
    have hsel : fill_best_response_select (u :: rest) =
        fill_best_response_select_go rest 1 0 (some u) := rfl
    by_cases hall : ∀ x ∈ rest, x ≤ u
    · have h0 : fill_best_response_select (u :: rest) = 0 := by
        rw [hsel, select_go_of_all_le rest 1 0 u hall]
      rw [h0]
      refine ⟨by simp, ?_, by omega⟩
      intro k hk
      cases k with
      | zero => simp
      | succ m =>
        simp only [List.getD_cons_succ, List.getD_cons_zero]
        exact hall _ (getD_mem_of_lt rest m 0 (by simpa using hk))
    · push_neg at hall
      obtain ⟨x, hx, hxgt⟩ := hall
      obtain ⟨j, hjlen, hjeq, hjgt, hjmax, hjfirst⟩ :=
        select_go_of_exists_gt rest 1 0 u ⟨x, hx, hxgt⟩
      have h0 : fill_best_response_select (u :: rest) = j + 1 := by
        rw [hsel, hjeq]; omega
      rw [h0]
      refine ⟨by simpa using Nat.succ_lt_succ hjlen, ?_, ?_⟩
      · intro k hk
        cases k with
        | zero => simpa using hjgt.le
        | succ m =>
          simp only [List.getD_cons_succ]
          exact hjmax m (by simpa using hk)
      · intro k hk
        cases k with
        | zero => simpa using hjgt
        | succ m =>
          simp only [List.getD_cons_succ]
          exact hjfirst m (by omega)

/-- C9: for every player info set of the best-responding player,
`fill_best_response` selects the action maximizing the reach-weighted sum
of child values aggregated over all states of the info set, breaking ties
between equal sums by the smallest action index (strict improvement is
required to displace the running best), and the strategy row it records
gives that action probability 1 and every other action probability 0. -/
theorem C9_best_response_argmax {σ : Type} (states : List σ) (reach : σ → ℚ)
    (childVal : σ → Nat → ℚ) (n : Nat) (hn : 0 < n) :
    fill_best_response_select
        (fill_best_response_utils states reach childVal n) < n ∧
    (∀ a < n,
      (fill_best_response_utils states reach childVal n).getD a 0 ≤
        (fill_best_response_utils states reach childVal n).getD
          (fill_best_response_select
            (fill_best_response_utils states reach childVal n)) 0) ∧
    (∀ a < fill_best_response_select
        (fill_best_response_utils states reach childVal n),
      (fill_best_response_utils states reach childVal n).getD a 0 <
        (fill_best_response_utils states reach childVal n).getD
          (fill_best_response_select
            (fill_best_response_utils states reach childVal n)) 0) ∧
    (∀ a < n,
      (fill_best_response_utils states reach childVal n).getD a 0 =
        (states.map fun s => reach s * childVal s a).sum) ∧
    (best_response_row n
        (fill_best_response_select
          (fill_best_response_utils states reach childVal n))).getD
      (fill_best_response_select
        (fill_best_response_utils states reach childVal n)) 0 = 1 ∧
    (∀ a < n,
      a ≠ fill_best_response_select
        (fill_best_response_utils states reach childVal n) →
      (best_response_row n
          (fill_best_response_select
            (fill_best_response_utils states reach childVal n))).getD a 0 =
        0) := by
  have hlen : (fill_best_response_utils states reach childVal n).length = n := by
    simp [fill_best_response_utils]
  have hne : fill_best_response_utils states reach childVal n ≠ [] := by
    intro hc
    rw [hc] at hlen
    simp at hlen
    omega
  obtain ⟨hlt, hmax, hfirst⟩ :=
    fill_best_response_select_spec (fill_best_response_utils states reach childVal n) hne
  rw [hlen] at hlt hmax
  refine ⟨hlt, hmax, hfirst, ?_, ?_, ?_⟩
  · intro a ha
    exact range_map_getD _ n a 0 ha
  · rw [best_response_row, range_map_getD _ n _ 0 hlt]
    simp
  · intro a ha hne'
    rw [best_response_row, range_map_getD _ n a 0 ha]
    simp [hne']

/-- Witness for C9: the argmax specification applied to a concrete info set
with two states and two actions. -/
theorem C9_best_response_argmax_witness :
    (0 : Nat) < 2 ∧
    fill_best_response_select
      (fill_best_response_utils [0, 1] (fun _ => (1 : ℚ))
        (fun s i => (s : ℚ) + i) 2) < 2 :=
  ⟨by norm_num,
    (C9_best_response_argmax [0, 1] (fun _ => (1 : ℚ))
      (fun s i => (s : ℚ) + i) 2 (by norm_num)).1⟩

/-! ## Strategy (strategy.h)

The average-strategy object keys two maps on the InfoSet and stores all
actions and probabilities in flat vectors.  `get_action` looks both maps up
with `std::map::at` — which throws for an absent key — then walks the first
`n-1` probabilities accumulating a prefix sum and returns the first action
whose prefix exceeds the sampled value, falling through to the last stored
action. -/

/-- The flat strategy store of strategy.h lines 10-18, with the maps
modelled as association lists (InfoSets and Actions as numbers). -/
structure StrategyS where
  info_set_to_idx : List (Nat × Nat)
  info_set_to_nb_actions : List (Nat × Nat)
  actions : List Nat
  strategies : List ℚ

/-- `std::map::at` semantics: `some` for a present key, `none` (a thrown
`std::out_of_range`) for an absent one. -/
def map_at (m : List (Nat × Nat)) (k : Nat) : Option Nat :=
  (m.find? fun p => p.1 == k).map (·.2)

/-- The sampling loop of `Strategy::get_action` (strategy.h lines 31-36):
`k` iterations remain of the `n-1` first actions, `i` is the current action
offset, `sum` the accumulated probability; on fall-through the action at the
final offset is returned. -/
def StrategyS.get_action_go (s : StrategyS) (idx : Nat) (r : ℚ) :
    Nat → Nat → ℚ → Nat
  | 0, i, _ => s.actions.getD (idx + i) 0
  | k + 1, i, sum =>
    let sum1 := sum + s.strategies.getD (idx + i) 0
    if r < sum1 then s.actions.getD (idx + i) 0
    else StrategyS.get_action_go s idx r k (i + 1) sum1

/-- Embedding of `Strategy::get_action` (strategy.h lines 20-37): both map
lookups use `.at`, then the sampling loop runs on the stored distribution
with the sampled uniform value `r`. -/
def StrategyS.get_action (s : StrategyS) (info : Nat) (r : ℚ) : Option Nat :=
  match map_at s.info_set_to_idx info, map_at s.info_set_to_nb_actions info with
  | some idx, some n => some (s.get_action_go idx r (n - 1) 0 0)
  | _, _ => none

/-- Embedding of `Strategy::get_strategy` (strategy.h lines 38-41): `.at`
lookup of the base index of the stored distribution (the source returns
`&strategies[idx]`), throwing for an absent info set. -/
def StrategyS.get_strategy (s : StrategyS) (info : Nat) : Option Nat :=
  map_at s.info_set_to_idx info

/-- The sampling loop returns an action within the window it scans. -/
theorem get_action_go_mem (s : StrategyS) (idx : Nat) (r : ℚ) :
    ∀ (k i : Nat) (sum : ℚ), ∃ j, j ≤ k ∧
      s.get_action_go idx r k i sum = s.actions.getD (idx + i + j) 0 := by
  intro k
  induction k with
  | zero => intro i sum; exact ⟨0, le_refl 0, rfl⟩
  | succ m ih =>
    intro i sum
    rw [StrategyS.get_action_go]
    by_cases hr : r < sum + s.strategies.getD (idx + i) 0
    · rw [if_pos hr]
      exact ⟨0, by omega, rfl⟩
    · rw [if_neg hr]
      obtain ⟨j, hj, heq⟩ := ih (i + 1) (sum + s.strategies.getD (idx + i) 0)
      refine ⟨j + 1, by omega, ?_⟩
      rw [heq]
      congr 1
      omega

/-- When the sampled value is at least the whole remaining prefix sum (and
the scanned probabilities are nonnegative), the loop falls through to the
final offset. -/
theorem get_action_go_last (s : StrategyS) (idx : Nat) (r : ℚ) :
    ∀ (k i : Nat) (sum : ℚ),
      (∀ j < k, 0 ≤ s.strategies.getD (idx + i + j) 0) →
      ¬ (r < sum +
        ((List.range k).map fun j => s.strategies.getD (idx + i + j) 0).sum) →
      s.get_action_go idx r k i sum = s.actions.getD (idx + i + k) 0 := by
  intro k
  induction k with
  | zero => intro i sum _ _; rfl
  | succ m ih =>
    intro i sum hnn hr
    have hdecomp :
        ((List.range (m + 1)).map fun j =>
            s.strategies.getD (idx + i + j) 0).sum =
          s.strategies.getD (idx + i) 0 +
            ((List.range m).map fun j =>
              s.strategies.getD (idx + (i + 1) + j) 0).sum := by
      rw [List.range_succ_eq_map]
      simp only [List.map_cons, List.sum_cons, List.map_map, Function.comp_def]
      have hmap : ((List.range m).map fun j =>
          s.strategies.getD (idx + i + Nat.succ j) 0) =
            ((List.range m).map fun j =>
          s.strategies.getD (idx + (i + 1) + j) 0) := by
        apply List.map_congr_left
        intro j hj
        congr 1
        omega
      rw [hmap]
      rfl
    have hrest : 0 ≤ ((List.range m).map fun j =>
        s.strategies.getD (idx + (i + 1) + j) 0).sum := by
      apply List.sum_nonneg
      intro x hx
      rcases List.mem_map.mp hx with ⟨j, hjmem, rfl⟩
      have hjm : j < m := List.mem_range.mp hjmem
      have := hnn (j + 1) (by omega)
      calc (0 : ℚ) ≤ s.strategies.getD (idx + i + (j + 1)) 0 := this
        _ = s.strategies.getD (idx + (i + 1) + j) 0 := by congr 1; omega
    rw [StrategyS.get_action_go]
    have hsum1 : ¬ (r < sum + s.strategies.getD (idx + i) 0) := by
      intro hc
      apply hr
      rw [hdecomp]
      calc r < sum + s.strategies.getD (idx + i) 0 := hc
        _ ≤ sum + (s.strategies.getD (idx + i) 0 +
            ((List.range m).map fun j =>
              s.strategies.getD (idx + (i + 1) + j) 0).sum) := by linarith
    rw [if_neg hsum1]
    have happ := ih (i + 1) (sum + s.strategies.getD (idx + i) 0)
      (fun j hj => by
        have := hnn (j + 1) (by omega)
        calc (0 : ℚ) ≤ s.strategies.getD (idx + i + (j + 1)) 0 := this
          _ = s.strategies.getD (idx + (i + 1) + j) 0 := by congr 1; omega)
      (by
        intro hc
        apply hr
        rw [hdecomp]
        linarith)
    rw [happ]
    congr 1
    omega

/-- C10: for an info set recorded in the strategy (index `idx`, `n ≥ 1`
actions within the stored action vector), `get_action` always returns one
of that info set's stored actions; whenever the sampled value is not
strictly below the accumulated probability of the first `n-1` actions
(including when the stored probabilities sum to less than 1), the last
stored action is returned; and for an absent info set both `get_action` and
`get_strategy` fail via the throwing map lookup instead of returning a
default distribution. -/
theorem C10_get_action_total (s : StrategyS) (info info2 idx n : Nat) (r : ℚ)
    (h1 : map_at s.info_set_to_idx info = some idx)
    (h2 : map_at s.info_set_to_nb_actions info = some n)
    (hn : 1 ≤ n) (hlen : idx + n ≤ s.actions.length)
    (habs : map_at s.info_set_to_idx info2 = none) :
    (∃ a, s.get_action info r = some a ∧ a ∈ s.actions ∧
      ∃ j, j < n ∧ a = s.actions.getD (idx + j) 0) ∧
    ((∀ j < n - 1, 0 ≤ s.strategies.getD (idx + j) 0) →
      ¬ (r < ((List.range (n - 1)).map fun j =>
          s.strategies.getD (idx + j) 0).sum) →
      s.get_action info r = some (s.actions.getD (idx + (n - 1)) 0)) ∧
    s.get_action info2 r = none ∧ s.get_strategy info2 = none := by
  have hga : s.get_action info r = some (s.get_action_go idx r (n - 1) 0 0) := by
    rw [StrategyS.get_action, h1, h2]
  refine ⟨?_, ?_, ?_, ?_⟩
  · obtain ⟨j, hj, heq⟩ := get_action_go_mem s idx r (n - 1) 0 0
    have hidx : idx + 0 + j = idx + j := by omega
    rw [hidx] at heq
    refine ⟨s.get_action_go idx r (n - 1) 0 0, hga, ?_, j, by omega, heq⟩
    rw [heq]
    exact getD_mem_of_lt s.actions (idx + j) 0 (by omega)
  · intro hnn hr
    rw [hga]
    congr 1
    have happ := get_action_go_last s idx r (n - 1) 0 0
      (fun j hj => by
        have := hnn j hj
        calc (0 : ℚ) ≤ s.strategies.getD (idx + j) 0 := this
          _ = s.strategies.getD (idx + 0 + j) 0 := rfl)
      (by
        intro hc
        apply hr
        have heqm : ((List.range (n - 1)).map fun j =>
            s.strategies.getD (idx + 0 + j) 0).sum =
          ((List.range (n - 1)).map fun j =>
            s.strategies.getD (idx + j) 0).sum := rfl
        rw [heqm] at hc
        linarith)
    rw [happ]
    rfl
  · rw [StrategyS.get_action, habs]
  · exact habs

/-- A concrete recorded strategy: one info set (key 5) at index 0 with two
actions 10 and 20 and probabilities 1/2 each. -/
def exStrategy : StrategyS where
  info_set_to_idx := [(5, 0)]
  info_set_to_nb_actions := [(5, 2)]
  actions := [10, 20]
  strategies := [1/2, 1/2]

/-- Witness for C10: the theorem applied to `exStrategy` at the present
info set 5 and the absent info set 6, with sampled value 2. -/
theorem C10_get_action_total_witness :
    (∃ a, exStrategy.get_action 5 2 = some a ∧ a ∈ exStrategy.actions ∧
      ∃ j, j < 2 ∧ a = exStrategy.actions.getD (0 + j) 0) ∧
    ((∀ j < 2 - 1, 0 ≤ exStrategy.strategies.getD (0 + j) 0) →
      ¬ ((2 : ℚ) < ((List.range (2 - 1)).map fun j =>
          exStrategy.strategies.getD (0 + j) 0).sum) →
      exStrategy.get_action 5 2 = some (exStrategy.actions.getD (0 + (2 - 1)) 0)) ∧
    exStrategy.get_action 6 2 = none ∧ exStrategy.get_strategy 6 = none :=
  C10_get_action_total exStrategy 5 6 0 2 2 (by decide) (by decide)
    (by norm_num) (by decide) (by decide)

/-! ## Outcome-sampling MCCFR (part_000, lines 259-329)

Every decision node (chance, updating player, opponent) samples exactly one
action; the joint sample probability accumulates in `sample_prob`; the
terminal utility is divided by the full-path `sample_prob`.  At the
updating player's node the zero-initialized local delta array receives
`pi_opponent * value` at the sampled index and `pi_updating` — with no
division by the sample probability — at `n + sampled`, and is accumulated
into the shard.  The PRNG draw is modelled by an oracle list of sampled
indices, one consumed per decision node. -/

/-- Trace record of one `add_regret_and_strategies` call performed at an
updating-player node, remembering the node context (`pi` arguments and the
`sample_prob` at node entry) alongside the submitted delta array. -/
structure OSEvent where
  shard_idx : Nat
  n : Nat
  sampled : Nat
  pi_updating : ℚ
  pi_opponent : ℚ
  sample_prob : ℚ
  value : ℚ
  deltas : List ℚ
deriving DecidableEq

/-- The local `regrets_and_strategies` delta array built at the updating
player's node (part_000 lines 312-314): zero-initialized of width
`2 * MAX`, then `pi_opponent * value` at the sampled index and
`pi_updating` at `n + sampled`. -/
def os_update_deltas (MAX n sampled : Nat) (pi_opponent value pi_updating : ℚ) :
    List ℚ :=
  (List.range (2 * MAX)).map fun i =>
    if i = sampled then pi_opponent * value
    else if i = n + sampled then pi_updating
    else 0

/-- The terminal return of `outcome_sampling_mccfr` (part_000 lines
266-271): the payoff from the updating player's perspective, divided by the
joint sample probability. -/
def os_terminal_value (payoff : Int) (updating_player : Nat)
    (sample_prob : ℚ) : ℚ :=
  (if updating_player = PLAYER1 then (payoff : ℚ) else -(payoff : ℚ)) /
    sample_prob

/-- Embedding of part_000's `Shard::add_regret_and_strategies` (lines
44-58) on the in-bounds slots: element-wise addition of the first `2n`
delta entries into the storage (claim C1 records that the declared storage
length makes the source writes out of bounds when `2n` exceeds it). -/
def MCCFR000.add_regret_and_strategies (storage values : List ℚ) (n : Nat) :
    List ℚ :=
  (List.range storage.length).map fun i =>
    if i < 2 * n then storage.getD i 0 + values.getD i 0 else storage.getD i 0

/-- Embedding of `MCCFR::outcome_sampling_mccfr` (part_000 lines 259-329)
with explicit state passing: shard storages, the oracle list of sampled
indices, and the trace of updating-player accumulate events. -/
def outcome_sampling_mccfr (t : GameTree) (n2d : List Nat) (probas : List ℚ)
    (MAX updating_player : Nat) :
    Nat → List (List ℚ) → List Nat → Nat → ℚ → ℚ → ℚ →
      ℚ × List (List ℚ) × List Nat × List OSEvent
  | 0, shards, choices, _, _, _, _ => (0, shards, choices, [])
  | fuel + 1, shards, choices, idx, pi_updating, pi_opponent, sample_prob =>
    let start := t.start_children_and_actions.getD idx 0
    let n := t.nb_children.getD idx 0 / 4
    if n = 0 then
      (os_terminal_value (t.children.getD start 0) updating_player sample_prob,
        shards, choices, [])
    else
    let player := t.nb_children.getD idx 0 % 4
    if player = CHANCE then
      let probas_idx := n2d.getD idx 0
      let sampled := min (choices.headD 0) (n - 1)
      let p := probas.getD (probas_idx + sampled) 0
      outcome_sampling_mccfr t n2d probas MAX updating_player fuel shards
        choices.tail (t.children.getD (start + 2 * sampled) 0).toNat
        pi_updating pi_opponent (sample_prob * p)
    else
      let shard_idx := n2d.getD idx 0
      let s := get_strategy_from_regrets ((shards.getD shard_idx default).take n)
      let sampled := min (choices.headD 0) (n - 1)
      let action_prob := s.getD sampled 0
      if player = updating_player then
        match outcome_sampling_mccfr t n2d probas MAX updating_player fuel
            shards choices.tail (t.children.getD (start + sampled) 0).toNat
            (pi_updating * action_prob) pi_opponent
            (sample_prob * action_prob) with
        | (value, shards1, choices1, events1) =>
          let deltas := os_update_deltas MAX n sampled pi_opponent value
            pi_updating
          let shards2 := shards1.set shard_idx
            (MCCFR000.add_regret_and_strategies
              (shards1.getD shard_idx default) deltas n)
          (value, shards2, choices1, events1 ++
            [⟨shard_idx, n, sampled, pi_updating, pi_opponent, sample_prob,
              value, deltas⟩])
      else
        outcome_sampling_mccfr t n2d probas MAX updating_player fuel shards
          choices.tail (t.children.getD (start + sampled) 0).toNat
          pi_updating (pi_opponent * action_prob)
          (sample_prob * action_prob)

/-! ### A concrete run

`osTree`: node 0 is a chance node with two outcomes of weights (25, 75)
leading to node 1 and terminal node 2 (payoff 0); node 1 is a P1 decision
node with terminal children node 3 (payoff 2) and node 4 (payoff 0).  The
stored chance probabilities are `[1/4, 3/4]`; the single player shard has
storage width `MAX = 4` so that the `2n = 4` accumulate writes stay in
range in the model. -/

/-- Concrete tree for the outcome-sampling run. -/
def osTree : GameTree where
  nb_children := [10, 8, 0, 0, 0]
  start_children_and_actions := [0, 4, 6, 7, 8]
  children := [1, 25, 2, 75, 3, 4, 0, 2, 0]

/-- Node-to-data map for `osTree` (node 0 → probas offset 0, node 1 →
shard 0). -/
abbrev osN2D : List Nat := [0, 0, 0, 0, 0]

/-- Stored chance probabilities for `osTree` (weights 25, 75 normalized). -/
abbrev osProbas : List ℚ := [1/4, 3/4]

/-- Fresh shard storages for `osTree`. -/
def osShards0 : List (List ℚ) := [[0, 0, 0, 0]]

/-- Field computation lemma for `osTree`. -/
theorem osTree_nb : osTree.nb_children = [10, 8, 0, 0, 0] := rfl

/-- Field computation lemma for `osTree`. -/
theorem osTree_start : osTree.start_children_and_actions = [0, 4, 6, 7, 8] := rfl

/-- Field computation lemma for `osTree`. -/
theorem osTree_children : osTree.children = [1, 25, 2, 75, 3, 4, 0, 2, 0] := rfl

/-- The accumulate event of the concrete run: at the P1 node the sampled
action 0 was taken with `pi_updating = 1`, `pi_opponent = 1`, node-entry
sample probability 1/4, importance-corrected value 16. -/
def osEvent0 : OSEvent :=
  ⟨0, 2, 0, 1, 1, 1/4, 16, os_update_deltas 4 2 0 1 16 1⟩

/-- Evaluation of one outcome-sampling iteration on `osTree` with the
updating player P1 and oracle choices `[0, 0]`: the chance node samples
outcome 0 (probability 1/4), the P1 node samples action 0 (uniform
probability 1/2), the terminal payoff 2 is importance-corrected to
`2 / (1/8) = 16`, and exactly one accumulate event is emitted. -/
theorem os_run_eval :
    outcome_sampling_mccfr osTree osN2D osProbas 4 PLAYER1 3 osShards0
      [0, 0] 0 1 1 1 =
    (16, [[16, 0, 1, 0]], [], [osEvent0]) := by
  have hterm3 : ∀ (f : Nat) (sh : List (List ℚ)) (cs : List Nat)
      (piU piO q : ℚ),
      outcome_sampling_mccfr osTree osN2D osProbas 4 0 (f + 1) sh cs 3
        piU piO q = ((2 : ℚ) / q, sh, cs, []) := by
    intro f sh cs piU piO q
    rw [outcome_sampling_mccfr]
    norm_num [osTree_nb, osTree_start, osTree_children, os_terminal_value,
      PLAYER1]
  have h1 : ∀ (f : Nat),
      outcome_sampling_mccfr osTree osN2D osProbas 4 0 (f + 2)
        [[(0 : ℚ), 0, 0, 0]] [0] 1 1 1 (1/4) =
      (16, [[16, 0, 1, 0]], [],
        [⟨0, 2, 0, 1, 1, 1/4, 16, os_update_deltas 4 2 0 1 16 1⟩]) := by
    intro f
    rw [outcome_sampling_mccfr]
    norm_num [osTree_nb, osTree_start, osTree_children,
      get_strategy_from_regrets, MCCFR000.add_regret_and_strategies,
      os_update_deltas, List.range_succ,
      PLAYER1, PLAYER2, CHANCE, Int.toNat, hterm3]
  have h0 : ∀ (f : Nat),
      outcome_sampling_mccfr osTree osN2D osProbas 4 0 (f + 3)
        [[(0 : ℚ), 0, 0, 0]] [0, 0] 0 1 1 1 =
      (16, [[16, 0, 1, 0]], [],
        [⟨0, 2, 0, 1, 1, 1/4, 16, os_update_deltas 4 2 0 1 16 1⟩]) := by
    intro f
    rw [outcome_sampling_mccfr]
    norm_num [osTree_nb, osTree_start, osTree_children,
      PLAYER1, PLAYER2, CHANCE, Int.toNat, h1]
  have h00 := h0 0
  norm_num [osShards0, osEvent0, PLAYER1] at h00 ⊢
  norm_num [h00]

/-- C5 counterexample: in the concrete run the cumulative-strategy delta
actually submitted for the sampled action is `pi_updating = 1`, whereas the
claim's `pi_self / q` is `1 / (1/4) = 4` for the node-entry sample
probability (and `1 / (1/8) = 8` for the full-path sample probability
including the sampled action's own probability 1/2): part_000's outcome
sampling does not divide the cumulative-strategy delta by `q`. -/
theorem C5_strategy_delta_counterexample :
    (outcome_sampling_mccfr osTree osN2D osProbas 4 PLAYER1 3 osShards0
      [0, 0] 0 1 1 1).2.2.2 = [osEvent0] ∧
    osEvent0.deltas.getD (osEvent0.n + osEvent0.sampled) 0 = 1 ∧
    osEvent0.pi_updating / osEvent0.sample_prob = 4 ∧
    osEvent0.pi_updating / (osEvent0.sample_prob * (1/2)) = 8 ∧
    (1 : ℚ) ≠ 4 ∧ (1 : ℚ) ≠ 8 := by
  refine ⟨?_, ?_, by norm_num [osEvent0], by norm_num [osEvent0],
    by norm_num, by norm_num⟩
  · rw [os_run_eval]
  · norm_num [osEvent0, os_update_deltas, List.range_succ]

/-- C5 (amended): in part_000's `outcome_sampling_mccfr` every decision
node samples exactly one action while tracking the joint sample probability
`q`; the terminal return is importance-corrected to `u/q`; at the updating
player's node the regret delta for the sampled action is `pi_opp` times the
importance-corrected value, the cumulative-strategy delta for the sampled
action is `pi_self` with NO division by `q`, and all other actions receive
zero delta that iteration.  (The `outcome_sampling` of mccfr.h differs
further: it enumerates all actions at the traversing player's node.) -/
theorem C5_outcome_sampling_amended (MAX n sampled : Nat) (hs : sampled < n)
    (hnM : n ≤ MAX) (pi_opponent value pi_updating : ℚ) :
    (os_update_deltas MAX n sampled pi_opponent value pi_updating).getD
      sampled 0 = pi_opponent * value ∧
    (os_update_deltas MAX n sampled pi_opponent value pi_updating).getD
      (n + sampled) 0 = pi_updating ∧
    (∀ i < 2 * MAX, i ≠ sampled → i ≠ n + sampled →
      (os_update_deltas MAX n sampled pi_opponent value pi_updating).getD
        i 0 = 0) ∧
    (∀ (pay : Int) (up : Nat) (q : ℚ), os_terminal_value pay up q =
      (if up = PLAYER1 then (pay : ℚ) else -(pay : ℚ)) / q) ∧
    ((outcome_sampling_mccfr osTree osN2D osProbas 4 PLAYER1 3 osShards0
        [0, 0] 0 1 1 1).1 = 16 ∧
      (16 : ℚ) = 2 / (1 / 8) ∧
      (outcome_sampling_mccfr osTree osN2D osProbas 4 PLAYER1 3 osShards0
        [0, 0] 0 1 1 1).2.2.1 = []) := by
  have hsM : sampled < 2 * MAX := by omega
  have hnsM : n + sampled < 2 * MAX := by omega
  have hne : sampled ≠ n + sampled := by omega
  refine ⟨?_, ?_, ?_, fun pay up q => rfl, ?_, by norm_num, ?_⟩
  · rw [os_update_deltas, range_map_getD _ _ _ _ hsM, if_pos rfl]
  · rw [os_update_deltas, range_map_getD _ _ _ _ hnsM,
      if_neg (Ne.symm hne), if_pos rfl]
  · intro i hi h1 h2
    rw [os_update_deltas, range_map_getD _ _ _ _ hi, if_neg h1, if_neg h2]
  · rw [os_run_eval]
  · rw [os_run_eval]

/-- Witness for C5: the amended characterization applied at `MAX = 4`,
`n = 2`, sampled action 0, `pi_opp = 1`, value 16, `pi_self = 1`. -/
theorem C5_outcome_sampling_amended_witness :
    (os_update_deltas 4 2 0 1 16 1).getD 0 0 = 1 * 16 ∧
    (os_update_deltas 4 2 0 1 16 1).getD (2 + 0) 0 = 1 :=
  ⟨(C5_outcome_sampling_amended 4 2 0 (by norm_num) (by norm_num) 1 16 1).1,
    (C5_outcome_sampling_amended 4 2 0 (by norm_num) (by norm_num) 1 16 1).2.1⟩

end GTO
